import Mathlib

/-!
Shallow embedding of the PO-catalog engine of potranslate (src/main.go).

Strings are modeled as lists of characters and a file as a list of lines:
the Go code reads the whole file, splits on a newline character, edits the
line list and joins it back, so working on the line list directly is
equivalent. Go maps are modeled as association lists; for `potEntries`
(a `map[string]POEntry` in the source) the list order stands for one
admissible iteration order of the map, because Go specifies no iteration
order for maps and any permutation is an admissible behavior of the code.
-/

abbrev Str := List Char

abbrev Line := Str

/-- Character list of a Lean string literal, used to write concrete inputs. -/
def str (s : String) : Str := s.data

/-- Whitespace test used by the model of strings.TrimSpace (ASCII subset,
which covers every character occurring in catalog files). -/
def isSpaceC (c : Char) : Bool :=
  c == ' ' || c == '\t' || c == '\n' || c == '\r' || c == '\x0b' || c == '\x0c'

/-- Model of strings.TrimSpace. -/
def trimStr (s : Str) : Str :=
  ((s.dropWhile isSpaceC).reverse.dropWhile isSpaceC).reverse

/-- Model of strings.HasPrefix: `startsWith s p` holds when `p` is a prefix of `s`. -/
def startsWith : Str → Str → Bool
  | _, [] => true
  | [], _ :: _ => false
  | c :: s, p :: ps => c == p && startsWith s ps

/-- Model of strings.HasSuffix. -/
def endsWith (s p : Str) : Bool := startsWith s.reverse p.reverse

/-- Model of strings.Contains: `containsSub s pat` holds when `pat` occurs in `s`. -/
def containsSub : Str → Str → Bool
  | [], pat => pat.isEmpty
  | s@(_ :: rest), pat => startsWith s pat || containsSub rest pat

/-- Fuelled worker for `replaceAll`; the fuel is an upper bound on the length
of the remaining input, so it never runs out on the initial call. -/
def replaceAllF (pat rep : Str) : Nat → Str → Str
  | 0, s => s
  | _ + 1, [] => []
  | fuel + 1, c :: rest =>
    if startsWith (c :: rest) pat && !pat.isEmpty then
      rep ++ replaceAllF pat rep fuel (List.drop (pat.length - 1) rest)
    else
      c :: replaceAllF pat rep fuel rest

/-- Model of strings.ReplaceAll (left-to-right, non-overlapping); every
pattern used by the source is non-empty. -/
def replaceAll (pat rep s : Str) : Str := replaceAllF pat rep s.length s

/-- Model of strings.Split with a one-character separator. -/
def splitOnChar (sep : Char) : Str → List Str
  | [] => [[]]
  | c :: rest =>
    match splitOnChar sep rest with
    | [] => []
    | h :: t => if c == sep then [] :: h :: t else (c :: h) :: t

/-- Model of strings.TrimPrefix. -/
def trimPrefixStr (s p : Str) : Str := if startsWith s p then s.drop p.length else s

/-- Model of strings.TrimSuffix. -/
def trimSuffixStr (s p : Str) : Str := if endsWith s p then s.take (s.length - p.length) else s

/-- Model of strings.ToUpper (character-wise, enough for 2-letter codes). -/
def toUpperStr (s : Str) : Str := s.map Char.toUpper

/-- Lookup in a Go map modeled as an association list with unique keys. -/
def lookupA {α : Type} : List (Str × α) → Str → Option α
  | [], _ => none
  | (k, v) :: rest, key => if k == key then some v else lookupA rest key

/-- Insert-or-overwrite in a Go map modeled as an association list; keeps
keys unique when the input list has unique keys. -/
def insertKV {α : Type} : List (Str × α) → Str → α → List (Str × α)
  | [], k, v => [(k, v)]
  | (k0, v0) :: rest, k, v =>
    if k0 == k then (k0, v) :: rest else (k0, v0) :: insertKV rest k v

/-- Faithful model of extractString (src/main.go lines 339-349): trim,
strip one surrounding pair of double quotes, then fold the escape pairs
backslash-n, backslash-t and backslash-quote. The source never folds the
pair backslash-backslash. Note: on the one-character input consisting of a
lone double quote the Go code would slice out of range and panic; this
total model returns the empty string there instead (no claim touches that
input). -/
def extractString (s0 : Str) : Str :=
  let s1 := trimStr s0
  let s2 :=
    if startsWith s1 (str "\"") && endsWith s1 (str "\"") then (s1.drop 1).dropLast else s1
  replaceAll (str "\\\"") (str "\"")
    (replaceAll (str "\\t") (str "\t")
      (replaceAll (str "\\n") (str "\n") s2))

/-- Faithful model of escapeString (src/main.go lines 351-357): escape
backslash first, then quote, then newline, then tab. -/
def escapeString (s : Str) : Str :=
  replaceAll (str "\t") (str "\\t")
    (replaceAll (str "\n") (str "\\n")
      (replaceAll (str "\"") (str "\\\"")
        (replaceAll (str "\\") (str "\\\\") s)))

/-- One entry of the template catalog, as in src/main.go lines 244-247. -/
structure POEntry where
  Msgstr : Str
  Comments : List Line
deriving DecidableEq

/-- Observable side effects of one run: whole-file writes and translation
backend calls, in chronological order. -/
inductive Event where
  | write (content : List Line)
  | call (key : Str)
deriving DecidableEq

/-- Test used in the write/call trace statements. -/
def isWrite : Event → Bool
  | .write _ => true
  | .call _ => false

/-- Result of a translatePoFile run: final on-disk content, the returned
count of successful translations, and the effect trace. -/
structure RunResult where
  content : List Line
  count : Nat
  trace : List Event
deriving DecidableEq

/-- First pass of translatePoFile (src/main.go lines 406-431): collect the
msgids already present in the PO file. State: accumulated keys, current
msgid, inMsgid, inMsgstr. -/
def scanExistingAux (acc : List Str) (cur : Str) (inI inS : Bool) : List Line → List Str
  | [] => acc
  | line :: rest =>
    let t := trimStr line
    if startsWith t (str "msgid ") then
      scanExistingAux acc (extractString (t.drop 6)) true false rest
    else if startsWith t (str "msgstr ") then
      scanExistingAux (if cur.isEmpty then acc else acc ++ [cur]) cur false true rest
    else if startsWith t (str "\"") && inI then
      scanExistingAux acc (cur ++ extractString t) inI inS rest
    else if t.isEmpty || startsWith t (str "#") then
      scanExistingAux acc cur false false rest
    else
      scanExistingAux acc cur inI inS rest

def scanExisting (lines : List Line) : List Str := scanExistingAux [] [] false false lines

/-- The missing msgids of the file, computed exactly as in src/main.go
lines 433-439: ranging over the potEntries map (the list order stands for
the map iteration order) and keeping keys absent from the file. -/
def missingOf (lines : List Line) (pot : List (Str × POEntry)) : List Str :=
  (pot.filter fun p => !p.1.isEmpty && !(scanExisting lines).contains p.1).map Prod.fst

/-- Continuation lines emitted for one multi-line string, as in the loops
at src/main.go lines 461-468, 635-642, 849-856, 872-879: every part but the
last gets an escaped backslash-n suffix; an empty last part is dropped. -/
def contLines : List Str → List Line
  | [] => []
  | [p] => if p.isEmpty then [] else [str "\"" ++ escapeString p ++ str "\""]
  | p :: rest => (str "\"" ++ escapeString p ++ str "\\n\"") :: contLines rest

/-- Lines emitted for a msgid or msgstr with logical value `s`:
a single quoted line, or a marker plus continuation lines when `s`
contains a newline (src/main.go lines 458-472 and analogous sites). -/
def entryLines (marker : Str) (s : Str) : List Line :=
  if s.contains '\n' then
    (marker ++ str " \"\"") :: contLines (splitOnChar '\n' s)
  else
    [marker ++ str " \"" ++ escapeString s ++ str "\""]

/-- Block appended for one missing msgid (src/main.go lines 448-473):
a blank line, the template comments (or the fallback comment), the msgid
lines, and an empty msgstr. -/
def addedBlock (pot : List (Str × POEntry)) (msgid : Str) : List Line :=
  (([] : Str) ::
    (match lookupA pot msgid with
      | some e => if e.Comments.isEmpty then [str "#: (added from POT)"] else e.Comments
      | none => [str "#: (added from POT)"])) ++
  entryLines (str "msgid") msgid ++ [str "msgstr \"\""]

/-- File content after appending the missing entries (src/main.go lines
442-489): first make sure the last line is blank, then append each block. -/
def addMissing (lines : List Line) (pot : List (Str × POEntry)) (missing : List Str) : List Line :=
  (if (lines.getLastD []).isEmpty then lines else lines ++ [[]]) ++
    (missing.map (addedBlock pot)).flatten

/-- File content after the addition phase of translatePoFile. -/
def linesAfterAdd (lines : List Line) (pot : List (Str × POEntry)) : List Line :=
  if (missingOf lines pot).isEmpty then lines else addMissing lines pot (missingOf lines pot)

/-- Trace of the addition phase: one whole-file write when something was
missing (src/main.go lines 476-479), nothing otherwise. -/
def addTrace (lines : List Line) (pot : List (Str × POEntry)) : List Event :=
  if (missingOf lines pot).isEmpty then [] else [Event.write (linesAfterAdd lines pot)]

/-- Pot lookup used by the needs-translation test (src/main.go line 512):
the key exists in the template and its template msgstr is empty. -/
def potEmptyMsgstr (pot : List (Str × POEntry)) (k : Str) : Bool :=
  match lookupA pot k with
  | some e => e.Msgstr.isEmpty
  | none => false

/-- Second pass of translatePoFile (src/main.go lines 491-524): collect, in
file order, the msgids whose msgstr is empty and whose template entry also
has an empty msgstr. -/
def scanNeedsAux (pot : List (Str × POEntry)) (acc : List Str) (cur curstr : Str) (inI inS : Bool) : List Line → List Str
  | [] => acc
  | line :: rest =>
    let t := trimStr line
    if startsWith t (str "msgid ") then
      scanNeedsAux pot acc (extractString (t.drop 6)) curstr true false rest
    else if startsWith t (str "msgstr ") then
      let ms := extractString (t.drop 7)
      let acc1 := if !cur.isEmpty && ms.isEmpty && potEmptyMsgstr pot cur then acc ++ [cur] else acc
      scanNeedsAux pot acc1 cur ms false true rest
    else if startsWith t (str "\"") && inI then
      scanNeedsAux pot acc (cur ++ extractString t) curstr inI inS rest
    else if startsWith t (str "\"") && inS then
      scanNeedsAux pot acc cur (curstr ++ extractString t) inI inS rest
    else if t.isEmpty || startsWith t (str "#") then
      scanNeedsAux pot acc cur curstr false false rest
    else
      scanNeedsAux pot acc cur curstr inI inS rest

def scanNeeds (lines : List Line) (pot : List (Str × POEntry)) : List Str :=
  scanNeedsAux pot [] [] [] false false lines

/-- Result of the sequential translation loop. -/
structure LoopOut where
  tr : List (Str × Str)
  cnt : Nat
  calls : List Str
deriving DecidableEq

/-- The translation loop of src/main.go lines 552-579 (and identically
lines 791-818): at the top of each iteration the cancellation flag is
polled (modeled as a function of the iteration index); when it is set the
loop stops without further backend calls. A failed call is logged and
skipped; a successful call is recorded and counted. The rate-limiting
sleep has no observable effect and is omitted. -/
def transLoop (backend : Str → Option Str) (flag : Nat → Bool) : List Str → Nat → LoopOut
  | [], _ => ⟨[], 0, []⟩
  | k :: rest, i =>
    if flag i then ⟨[], 0, []⟩
    else
      match backend k with
      | none => let r := transLoop backend flag rest (i + 1); ⟨r.tr, r.cnt, k :: r.calls⟩
      | some v => let r := transLoop backend flag rest (i + 1); ⟨(k, v) :: r.tr, r.cnt + 1, k :: r.calls⟩

/-- The inner lookahead loop of the patch pass (src/main.go lines 607-623).
It walks the lines after a translated msgid up to its msgstr, emitting the
lines it passes and extending the current msgid with continuations.
The assignments `i = j` in the source do not advance the enclosing range
loop (Go range loops ignore writes to the loop variable), so the walked
lines are processed again by the outer loop; this model returns only what
the lookahead itself emits. -/
def lookaheadPatch (cur : Str) : List Line → List Line × Str
  | [] => ([], cur)
  | l :: rest =>
    let t := trimStr l
    if startsWith t (str "msgstr ") then ([], cur)
    else if startsWith t (str "\"") then
      let r := lookaheadPatch (cur ++ extractString t) rest
      (l :: r.1, r.2)
    else if !t.isEmpty && !startsWith t (str "#") then ([], cur)
    else
      let r := lookaheadPatch cur rest
      (l :: r.1, r.2)

/-- Replacement msgstr block (src/main.go lines 630-645); a Go map lookup
of an absent key yields the empty string. -/
def msgstrBlock (tr : List (Str × Str)) (cur : Str) : List Line :=
  entryLines (str "msgstr") ((lookupA tr cur).getD [])

/-- The patch pass of translatePoFile (src/main.go lines 588-662), faithful
to the Go range-loop semantics: the lookahead starting at a translated
msgid emits lines that the outer loop then emits again. `prev` is the
previous line (for the guard that consults lines at index i-1). -/
def patchLoop (tr : List (Str × Str)) (prev : Option Line) (cur : Str) (inI inS skip : Bool) : List Line → List Line
  | [] => []
  | line :: rest =>
    let t := trimStr line
    if startsWith t (str "msgid ") then
      let cur1 := extractString (t.drop 6)
      if (lookupA tr cur1).isSome then
        let la := lookaheadPatch cur1 rest
        (line :: la.1) ++ patchLoop tr (some line) la.2 true false true rest
      else
        line :: patchLoop tr (some line) cur1 true false skip rest
    else if startsWith t (str "msgstr ") then
      if skip then
        msgstrBlock tr cur ++ patchLoop tr (some line) cur false true false rest
      else
        line :: patchLoop tr (some line) cur false true skip rest
    else if startsWith t (str "\"") && inI then
      line :: patchLoop tr (some line) (cur ++ extractString t) inI inS skip rest
    else
      let dropIt := skip && startsWith t (str "\"") &&
        (match prev with | some p => containsSub p (str "msgstr") | none => false)
      let reset := t.isEmpty || startsWith t (str "#")
      (if dropIt then [] else [line]) ++
        patchLoop tr (some line) cur (if reset then false else inI) (if reset then false else inS) skip rest

/-- Faithful model of translatePoFile (src/main.go lines 397-672) as a pure
function of the file lines, the template map (with its iteration order),
the translation backend and the cancellation flag schedule. -/
def translatePoFile (lines : List Line) (pot : List (Str × POEntry)) (backend : Str → Option Str) (flag : Nat → Bool) : RunResult :=
  if (scanNeeds (linesAfterAdd lines pot) pot).isEmpty then
    ⟨linesAfterAdd lines pot, 0, addTrace lines pot⟩
  else if (transLoop backend flag (scanNeeds (linesAfterAdd lines pot) pot) 0).cnt = 0 then
    ⟨linesAfterAdd lines pot, 0,
      addTrace lines pot ++ (transLoop backend flag (scanNeeds (linesAfterAdd lines pot) pot) 0).calls.map Event.call⟩
  else
    ⟨patchLoop (transLoop backend flag (scanNeeds (linesAfterAdd lines pot) pot) 0).tr none [] false false false (linesAfterAdd lines pot),
      (transLoop backend flag (scanNeeds (linesAfterAdd lines pot) pot) 0).cnt,
      addTrace lines pot ++
        (transLoop backend flag (scanNeeds (linesAfterAdd lines pot) pot) 0).calls.map Event.call ++
        [Event.write (patchLoop (transLoop backend flag (scanNeeds (linesAfterAdd lines pot) pot) 0).tr none [] false false false (linesAfterAdd lines pot))]⟩

/-- Scan state of the rewrite mode extraction pass (src/main.go lines
686-690). -/
structure RwScan where
  cur : Str
  curstr : Str
  inI : Bool
  inS : Bool
  inHeader : Bool
  hdr : List Line
  existing : List (Str × Str)
deriving DecidableEq

/-- One line of the rewrite extraction pass (src/main.go lines 692-753):
the branch chain updating the state, followed by the header-line collect
block, in source order. -/
def rwStep (st : RwScan) (line : Line) : RwScan :=
  let t := trimStr line
  let st1 :=
    if startsWith t (str "msgid ") then
      if t == str "msgid \"\"" && st.inHeader then
        { st with cur := [], inI := true, inS := false }
      else
        { st with inHeader := false, cur := extractString (t.drop 6), curstr := [], inI := true, inS := false }
    else if startsWith t (str "msgstr ") then
      if st.inHeader && st.cur.isEmpty then
        { st with inI := false, inS := true }
      else
        { st with curstr := extractString (t.drop 7), inI := false, inS := true }
    else if startsWith t (str "\"") then
      if st.inI && !st.inHeader then { st with cur := st.cur ++ extractString t }
      else if st.inS && !st.inHeader then { st with curstr := st.curstr ++ extractString t }
      else st
    else if t.isEmpty then
      let sa := if st.inHeader && st.cur.isEmpty then { st with inHeader := false } else st
      let sb :=
        if !sa.inHeader && !sa.cur.isEmpty then
          { sa with existing := insertKV sa.existing sa.cur sa.curstr, cur := [], curstr := [] }
        else sa
      { sb with inI := false, inS := false }
    else if startsWith t (str "#") then
      if st.inHeader then { st with hdr := st.hdr ++ [line] } else st
    else st
  if st1.inHeader then
    if st1.cur.isEmpty || t.isEmpty || startsWith t (str "msgid") || startsWith t (str "msgstr") || startsWith t (str "\"") then
      if !startsWith t (str "#") || st1.hdr.isEmpty || !(line == st1.hdr.getLastD []) then
        if !line.isEmpty || st1.hdr.isEmpty || !(st1.hdr.getLastD []).isEmpty then
          { st1 with hdr := st1.hdr ++ [line] }
        else st1
      else st1
    else st1
  else st1

/-- Result of a rewritePoFile run: regenerated content, successful
translation count, and the reported count of removed obsolete entries. -/
structure RewriteResult where
  content : List Line
  count : Nat
  removed : Nat
deriving DecidableEq

/-- Faithful model of rewritePoFile (src/main.go lines 676-904): extract
header and existing translations, compute the keys needing translation by
ranging over the potEntries map (list order = map iteration order), run
the translation loop, then regenerate the whole body by ranging over the
map again, and count the obsolete keys. -/
def rewritePoFile (lines : List Line) (pot : List (Str × POEntry)) (backend : Str → Option Str) (flag : Nat → Bool) : RewriteResult :=
  let st := lines.foldl rwStep ⟨[], [], false, false, true, [], []⟩
  let existing :=
    if !st.cur.isEmpty && !st.inHeader then insertKV st.existing st.cur st.curstr else st.existing
  let needs :=
    (pot.filter fun p =>
      !p.1.isEmpty &&
        (match lookupA existing p.1 with
          | none => true
          | some v => v.isEmpty)).map Prod.fst
  let lo := transLoop backend flag needs 0
  let body :=
    st.hdr ++ (if !st.hdr.isEmpty && !(st.hdr.getLastD []).isEmpty then [([] : Str)] else []) ++
      ((pot.filter fun p => !p.1.isEmpty).map fun p =>
        (([] : Str) :: p.2.Comments) ++ entryLines (str "msgid") p.1 ++
          entryLines (str "msgstr") ((lookupA lo.tr p.1).getD ((lookupA existing p.1).getD []))).flatten
  let removed := (existing.filter fun q => (lookupA pot q.1).isNone && !q.1.isEmpty).length
  ⟨body, lo.cnt, removed⟩

/-- Header rewrite lines of copyPotToPo (src/main.go lines 965-981). -/
def langLine (lang : Str) : Str := str "\"Language: " ++ lang ++ str "\\n\""

def teamLine (lang : Str) : Str := str "\"Language-Team: " ++ toUpperStr lang ++ str "\\n\""

def dateLine (ts : Str) : Str := str "\"PO-Revision-Date: " ++ ts ++ str "\\n\""

/-- Header-region flag update of copyPotToPo (src/main.go lines 984-989):
after a blank line that is not the first line and is followed by a line
that is non-empty and does not start with a quote, the header ends. -/
def nextHdrFlag (isFirst inHeader : Bool) (line : Line) (rest : List Line) : Bool :=
  if inHeader && !isFirst && (trimStr line).isEmpty then
    match rest with
    | next :: _ =>
      if !startsWith (trimStr next) (str "\"") && !(trimStr next).isEmpty then false else inHeader
    | [] => inHeader
  else inHeader

/-- Faithful model of the line loop of copyPotToPo (src/main.go lines
961-993). The current timestamp produced by time.Now is passed in as the
parameter `ts`. -/
def copyLoop (lang ts : Str) : Bool → Bool → List Line → List Line
  | _, _, [] => []
  | isFirst, inHeader, line :: rest =>
    if inHeader && containsSub line (str "\"Language:") then
      langLine lang :: copyLoop lang ts false inHeader rest
    else if inHeader && containsSub line (str "\"Language-Team:") then
      teamLine lang :: copyLoop lang ts false inHeader rest
    else if inHeader && containsSub line (str "\"PO-Revision-Date:") then
      dateLine ts :: copyLoop lang ts false inHeader rest
    else
      line :: copyLoop lang ts false (nextHdrFlag isFirst inHeader line rest) rest

/-- Model of copyPotToPo (src/main.go lines 949-1002) on the line list of
the template file. -/
def copyPotToPo (lang ts : Str) (lines : List Line) : List Line :=
  copyLoop lang ts true true lines

/-- The header-region flag of each line of the file, with the same update
rule as the copy loop; used to state the line-for-line characterization. -/
def hdrFlags : Bool → Bool → List Line → List Bool
  | _, _, [] => []
  | isFirst, inHeader, line :: rest =>
    inHeader :: hdrFlags false (nextHdrFlag isFirst inHeader line rest) rest

/-- The per-line transformation the spec describes: inside the header
region a line carrying one of the three markers is rewritten, every other
line is copied unchanged. -/
def rewriteLine (lang ts : Str) (flag : Bool) (line : Line) : Line :=
  if flag && containsSub line (str "\"Language:") then langLine lang
  else if flag && containsSub line (str "\"Language-Team:") then teamLine lang
  else if flag && containsSub line (str "\"PO-Revision-Date:") then dateLine ts
  else line

/-- Language value parsed from a line carrying the quoted Language marker
(src/main.go lines 370-381): the text between the first and second colon,
trimmed, with a leading quote, a trailing escaped newline plus quote, and
a trailing quote removed. -/
def parseLangValue (line : Line) : Str :=
  match splitOnChar ':' line with
  | _ :: p1 :: _ =>
    trimSuffixStr (trimSuffixStr (trimPrefixStr (trimStr p1) (str "\"")) (str "\\n\"")) (str "\"")
  | _ => []

/-- Content scan of getTargetLanguage (src/main.go lines 366-382): the
first line containing the quoted Language marker whose parsed value is
non-empty wins. -/
def scanLangLines : List Line → Option Str
  | [] => none
  | line :: rest =>
    if containsSub line (str "\"Language:") then
      if (parseLangValue line).isEmpty then scanLangLines rest else some (parseLangValue line)
    else scanLangLines rest

/-- Faithful model of getTargetLanguage (src/main.go lines 359-395) on the
file lines and the base filename; `none` models the returned error. -/
def getTargetLanguage (lines : List Line) (base : Str) : Option Str :=
  match scanLangLines lines with
  | some l => some l
  | none =>
    if 2 ≤ (splitOnChar '_' base).length then
      if (trimSuffixStr ((splitOnChar '_' base).getLastD []) (str ".po")).isEmpty then none
      else some (trimSuffixStr ((splitOnChar '_' base).getLastD []) (str ".po"))
    else none

/-- The substring of `s` after the last underscore (meaningful when `s`
contains an underscore); written from the words of the claim. -/
def afterLastUnd : Str → Str
  | [] => []
  | c :: rest =>
    if '_' ∈ rest then afterLastUnd rest
    else if c = '_' then rest else c :: rest

/-- The filename rule as the claim states it: when the name contains an
underscore, take the substring after the last underscore, strip the .po
suffix, and return it when non-empty; otherwise no language is derived. -/
def claimLangFromFilename (base : Str) : Option Str :=
  if '_' ∈ base then
    if (trimSuffixStr (afterLastUnd base) (str ".po")).isEmpty then none
    else some (trimSuffixStr (afterLastUnd base) (str ".po"))
  else none

/-- Outcome of the add-language step on a file system modeled as an
association list from paths to line lists. -/
structure FsOutcome where
  fs : List (Str × List Line)
  failed : Bool
deriving DecidableEq

/-- Model of the add-language bootstrap of main (src/main.go lines
124-136 plus copyPotToPo): if the destination path already exists the run
fails with a configuration error before any write; otherwise the rewritten
template is written to the destination. -/
def addLangStep (fs : List (Str × List Line)) (potPath destPath : Str) (lang ts : Str) : FsOutcome :=
  if (lookupA fs destPath).isSome then ⟨fs, true⟩
  else
    match lookupA fs potPath with
    | none => ⟨fs, true⟩
    | some content => ⟨insertKV fs destPath (copyPotToPo lang ts content), false⟩

/-- Exit path of main (src/main.go lines 198-203): exit code 130 when the
run was interrupted, normal termination otherwise. -/
def mainExit (interrupted : Bool) : Nat := if interrupted then 130 else 0

/-- Template with keys a and b, in that order. -/
def potAB : List (Str × POEntry) := [(str "a", ⟨[], []⟩), (str "b", ⟨[], []⟩)]

/-- The same template map under the other admissible iteration order. -/
def potBA : List (Str × POEntry) := [(str "b", ⟨[], []⟩), (str "a", ⟨[], []⟩)]

/-- A PO file holding only the header entry. -/
def headerOnlyPo : List Line := [str "msgid \"\"", str "msgstr \"\"", str ""]

/-- A PO file whose single entry has a comment line between its msgid and
its msgstr. -/
def dupCommentPo : List Line :=
  [str "msgid \"\"", str "msgstr \"\"", str "", str "# c", str "msgid \"a\"", str "# mid", str "msgstr \"\""]

/-- Template with the single key a. -/
def potA1 : List (Str × POEntry) := [(str "a", ⟨[], []⟩)]

/-- A PO file with header, the obsolete entry old, and nothing else. -/
def oldEntryPo : List Line :=
  [str "msgid \"\"", str "msgstr \"\"", str "\"Language: nl\\n\"", str "",
   str "msgid \"old\"", str "msgstr \"OLD\""]

/-- Template with the single key consisting of one backslash character. -/
def bsPot : List (Str × POEntry) := [(str "\\", ⟨[], []⟩)]

/-- Template with keys a, b, c in that order, none translated. -/
def potABC : List (Str × POEntry) :=
  [(str "a", ⟨[], []⟩), (str "b", ⟨[], []⟩), (str "c", ⟨[], []⟩)]

/-- A PO file containing entries a, b, c, all untranslated. -/
def fileABC : List Line :=
  [str "msgid \"\"", str "msgstr \"\"", str "", str "msgid \"a\"", str "msgstr \"\"", str "",
   str "msgid \"b\"", str "msgstr \"\"", str "", str "msgid \"c\"", str "msgstr \"\""]

/-- `fileABC` after a run that translated only the key a. -/
def fileABCout : List Line :=
  [str "msgid \"\"", str "msgstr \"\"", str "", str "msgid \"a\"", str "msgstr \"Xa\"", str "",
   str "msgid \"b\"", str "msgstr \"\"", str "", str "msgid \"c\"", str "msgstr \"\""]

/-- The incremental-sync scenario target file: template keys a, b, c with
only a present and already translated. -/
def syncPo : List Line :=
  [str "msgid \"\"", str "msgstr \"\"", str "\"Language: es\\n\"", str "",
   str "msgid \"a\"", str "msgstr \"A\""]


/-- Calls recorded in the trace are never writes. -/
theorem filter_isWrite_map_call (l : List Str) :
    (l.map Event.call).filter isWrite = [] := by
  induction l with
  | nil => rfl
  | cons a rest ih => simp [isWrite, ih]

/-- Behavior of the translation loop with an always-succeeding backend and
a cancellation flag that turns on at iteration k: exactly the first k - i
keys are attempted and recorded. -/
theorem transLoop_take (f : Str → Str) (k : Nat) :
    ∀ (keys : List Str) (i : Nat),
      transLoop (fun s => some (f s)) (fun j => decide (k ≤ j)) keys i =
        ⟨(keys.take (k - i)).map (fun s => (s, f s)), min (k - i) keys.length, keys.take (k - i)⟩ := by
  intro keys
  induction keys with
  | nil => intro i; simp [transLoop]
  | cons a rest ih =>
    intro i
    by_cases hki : k ≤ i
    · have h0 : k - i = 0 := by omega
      simp [transLoop, hki, h0]
    · have h1 : ¬ (decide (k ≤ i) = true) := by simpa using hki
      obtain ⟨d, hd⟩ : ∃ d, k - i = d + 1 := ⟨k - i - 1, by omega⟩
      have h2 : k - (i + 1) = d := by omega
      simp only [transLoop, h1, if_false, ih (i + 1), h2, hd, List.take_succ_cons,
        List.map_cons, List.length_cons, Nat.succ_min_succ]
      simp [Nat.succ_eq_add_one]

/-- A character of a matched pattern occurs in the string having it as a prefix. -/
theorem mem_of_startsWith {c : Char} :
    ∀ (pat s : Str), startsWith s pat = true → c ∈ pat → c ∈ s := by
  intro pat
  induction pat with
  | nil => intro s _ hm; cases hm
  | cons p ps ih =>
    intro s hs hm
    cases s with
    | nil => simp [startsWith] at hs
    | cons a s1 =>
      rw [startsWith, Bool.and_eq_true, beq_iff_eq] at hs
      rcases List.mem_cons.mp hm with h | h
      · exact h ▸ hs.1 ▸ List.mem_cons_self a s1
      · exact List.mem_cons_of_mem a (ih s1 hs.2 h)

/-- A character of a contained pattern occurs in the containing string. -/
theorem mem_of_containsSub {c : Char} :
    ∀ (s pat : Str), containsSub s pat = true → c ∈ pat → c ∈ s := by
  intro s
  induction s with
  | nil =>
    intro pat hs hm
    rw [containsSub, List.isEmpty_iff] at hs
    subst hs; cases hm
  | cons a rest ih =>
    intro pat hs hm
    rw [containsSub, Bool.or_eq_true] at hs
    rcases hs with h | h
    · exact mem_of_startsWith pat (a :: rest) h hm
    · exact List.mem_cons_of_mem a (ih pat h hm)

/-- A string containing a non-space character does not trim to empty. -/
theorem trimStr_not_empty {c : Char} {s : Str} (hm : c ∈ s) (hc : isSpaceC c = false) :
    (trimStr s).isEmpty = false := by
  rw [Bool.eq_false_iff]
  intro he
  rw [List.isEmpty_iff, trimStr, List.reverse_eq_nil_iff, List.dropWhile_eq_nil_iff] at he
  have hall : ∀ x ∈ s.dropWhile isSpaceC, isSpaceC x = true := by
    intro x hx
    exact he x (List.mem_reverse.mpr hx)
  rw [← List.takeWhile_append_dropWhile (p := isSpaceC) (l := s)] at hm
  rcases List.mem_append.mp hm with h | h
  · exact absurd (List.mem_takeWhile_imp h) (by simp [hc])
  · exact absurd (hall c h) (by simp [hc])

/-- A line carrying one of the quoted header markers is never blank, so it
does not change the header-region flag. -/
theorem nextHdrFlag_of_marker {pat : Str} (f h : Bool) (line : Line) (rest : List Line)
    (hq : '"' ∈ pat) (hc : containsSub line pat = true) :
    nextHdrFlag f h line rest = h := by
  have ht := trimStr_not_empty (mem_of_containsSub line pat hc hq) (by decide)
  unfold nextHdrFlag
  simp [ht]

/-- The header flags list has one flag per line. -/
theorem hdrFlags_length : ∀ (f h : Bool) (ls : List Line), (hdrFlags f h ls).length = ls.length := by
  intro f h ls
  induction ls generalizing f h with
  | nil => rfl
  | cons line rest ih => simp [hdrFlags, ih]

/-- The copy loop acts line for line: each line is transformed by
`rewriteLine` under its header-region flag. -/
theorem copyLoop_eq_zipWith (lang ts : Str) :
    ∀ (ls : List Line) (f h : Bool),
      copyLoop lang ts f h ls = List.zipWith (rewriteLine lang ts) (hdrFlags f h ls) ls := by
  intro ls
  induction ls with
  | nil => intro f h; rfl
  | cons line rest ih =>
    intro f h
    by_cases h1 : (h && containsSub line (str "\"Language:")) = true
    · have hnf := nextHdrFlag_of_marker f h line rest (by decide)
        (Bool.and_eq_true .. ▸ h1).2
      simp [copyLoop, hdrFlags, rewriteLine, h1, hnf, ih]
    · by_cases h2 : (h && containsSub line (str "\"Language-Team:")) = true
      · have hnf := nextHdrFlag_of_marker f h line rest (by decide)
          (Bool.and_eq_true .. ▸ h2).2
        simp [copyLoop, hdrFlags, rewriteLine, h1, h2, hnf, ih]
      · by_cases h3 : (h && containsSub line (str "\"PO-Revision-Date:")) = true
        · have hnf := nextHdrFlag_of_marker f h line rest (by decide)
            (Bool.and_eq_true .. ▸ h3).2
          simp [copyLoop, hdrFlags, rewriteLine, h1, h2, h3, hnf, ih]
        · simp [copyLoop, hdrFlags, rewriteLine, h1, h2, h3, ih]

/-- When no line carries the quoted Language marker the content scan of
getTargetLanguage finds nothing. -/
theorem scanLangLines_eq_none :
    ∀ (lines : List Line), (∀ l ∈ lines, containsSub l (str "\"Language:") = false) →
      scanLangLines lines = none := by
  intro lines
  induction lines with
  | nil => intro _; rfl
  | cons line rest ih =>
    intro h
    have h0 := h line (List.mem_cons_self line rest)
    rw [scanLangLines, h0]
    simp only [Bool.false_eq_true, if_false]
    exact ih fun l hl => h l (List.mem_cons_of_mem line hl)

/-- Splitting never yields the empty list of parts. -/
theorem splitOnChar_ne_nil (sep : Char) : ∀ (s : Str), splitOnChar sep s ≠ [] := by
  intro s
  induction s with
  | nil => simp [splitOnChar]
  | cons c rest ih =>
    cases hsp : splitOnChar sep rest with
    | nil => exact absurd hsp ih
    | cons h t =>
      rw [splitOnChar, hsp]
      by_cases hc : c = sep <;> simp [hc]

/-- Splitting on a separator absent from the string yields the string as
the only part. -/
theorem splitOnChar_of_not_mem (sep : Char) :
    ∀ (s : Str), sep ∉ s → splitOnChar sep s = [s] := by
  intro s
  induction s with
  | nil => intro _; rfl
  | cons c rest ih =>
    intro hn
    have hc : (c == sep) = false := by
      simp only [beq_eq_false_iff_ne]
      exact fun hce => hn (hce ▸ List.mem_cons_self c rest)
    rw [splitOnChar, ih fun hr => hn (List.mem_cons_of_mem c hr), hc]
    simp

/-- The split has at least two parts exactly when the separator occurs. -/
theorem two_le_splitOnChar_length_iff (sep : Char) :
    ∀ (s : Str), 2 ≤ (splitOnChar sep s).length ↔ sep ∈ s := by
  intro s
  induction s with
  | nil => simp [splitOnChar]
  | cons c rest ih =>
    rw [splitOnChar]
    cases hsp : splitOnChar sep rest with
    | nil => exact absurd hsp (splitOnChar_ne_nil sep rest)
    | cons h t =>
      by_cases hc : c = sep
      · have : (c == sep) = true := beq_iff_eq.mpr hc
        simp [this, hc]
      · have hb : (c == sep) = false := beq_eq_false_iff_ne.mpr hc
        rw [hb]
        rw [hsp] at ih
        simp only [if_false, List.length_cons, List.mem_cons, Bool.false_eq_true]
        constructor
        · intro hl
          exact Or.inr (ih.mp (by simpa using hl))
        · intro hm
          rcases hm with hm | hm
          · exact absurd hm.symm hc
          · simpa using ih.mpr hm

/-- The default of getLastD is irrelevant for a non-empty list. -/
theorem getLastD_of_ne_nil {α : Type} (l : List α) (hne : l ≠ []) (d1 d2 : α) :
    l.getLastD d1 = l.getLastD d2 := by
  cases l with
  | nil => exact absurd rfl hne
  | cons a t => rw [List.getLastD_cons, List.getLastD_cons]

/-- The last part of the underscore split is the substring after the last
underscore (the whole string when no underscore occurs). -/
theorem getLastD_splitOnChar_underscore :
    ∀ (s : Str), (splitOnChar '_' s).getLastD [] = afterLastUnd s := by
  intro s
  induction s with
  | nil => rfl
  | cons c rest ih =>
    cases hsp : splitOnChar '_' rest with
    | nil => exact absurd hsp (splitOnChar_ne_nil '_' rest)
    | cons h t =>
      rw [hsp] at ih
      by_cases hm : '_' ∈ rest
      · have ht : t ≠ [] := by
          have h2 : 2 ≤ (splitOnChar '_' rest).length := (two_le_splitOnChar_length_iff '_' rest).mpr hm
          rw [hsp] at h2
          intro hteq
          rw [hteq] at h2
          simp at h2
        obtain ⟨t1, t2, rfl⟩ : ∃ t1 t2, t = t1 :: t2 := by
          cases t with
          | nil => exact absurd rfl ht
          | cons t1 t2 => exact ⟨t1, t2, rfl⟩
        simp only [List.getLastD_cons] at ih
        by_cases hc : c = '_'
        · subst hc
          simp only [splitOnChar, hsp, beq_self_eq_true, if_true, afterLastUnd, if_pos hm,
            List.getLastD_cons]
          exact ih
        · have hb : (c == '_') = false := beq_eq_false_iff_ne.mpr hc
          simp only [splitOnChar, hsp, hb, Bool.false_eq_true, if_false, afterLastUnd,
            if_pos hm, List.getLastD_cons]
          exact ih
      · have hone : splitOnChar '_' rest = [rest] := splitOnChar_of_not_mem '_' rest hm
        rw [hsp] at hone
        injection hone with hh htl
        subst hh; subst htl
        by_cases hc : c = '_'
        · subst hc
          simp [splitOnChar, hsp, afterLastUnd, hm, List.getLastD_cons]
        · have hb : (c == '_') = false := beq_eq_false_iff_ne.mpr hc
          simp [splitOnChar, hsp, hb, afterLastUnd, hm, hc, List.getLastD_cons]

/-- Claim C1. The claim states that decoding the encoding returns the
original text for every text over printable characters, backslash, quote,
newline and tab. It fails at the text consisting of a single backslash:
escapeString doubles the backslash, but extractString folds only the
escape pairs backslash-n, backslash-t and backslash-quote and never folds
backslash-backslash, so the round trip returns two backslashes. -/
theorem extractString_escapeString_backslash_no_roundtrip :
    extractString (str "\"" ++ escapeString (str "\\") ++ str "\"") = str "\\\\" ∧
    str "\\\\" ≠ str "\\" := by
  constructor
  · decide
  · decide

/-- Claim C2. The claim states that the to-add keys are enumerated in
template order so that runs are deterministic. The code instead ranges over
the Go map potEntries; under two admissible iteration orders of the same
map (the two lists are permutations of each other) the incremental sync of
the same header-only file against the same template produces different
file contents. -/
theorem translatePoFile_to_add_order_follows_map_order :
    potAB.Perm potBA ∧
    (translatePoFile headerOnlyPo potAB (fun _ => none) (fun _ => false)).content ≠
      (translatePoFile headerOnlyPo potBA (fun _ => none) (fun _ => false)).content := by
  constructor
  · simp only [potAB, potBA]
    exact List.Perm.swap _ _ _
  · decide

/-- Claim C3. The claim states that rewrite mode emits the entries in
template order. The code ranges over the Go map potEntries when it
regenerates the body; under two admissible iteration orders of the same
map the regenerated contents differ, so the output order is the map
iteration order, not the template order. The reported removed count does
behave as claimed (here 1 for the single obsolete key old). -/
theorem rewritePoFile_output_order_follows_map_order :
    potAB.Perm potBA ∧
    (rewritePoFile oldEntryPo potAB (fun _ => none) (fun _ => false)).content ≠
      (rewritePoFile oldEntryPo potBA (fun _ => none) (fun _ => false)).content ∧
    (rewritePoFile oldEntryPo potAB (fun _ => none) (fun _ => false)).removed = 1 := by
  refine ⟨?_, ?_, ?_⟩
  · simp only [potAB, potBA]
    exact List.Perm.swap _ _ _
  · decide
  · decide

/-- Claim C4. The claim states that the patch phase leaves every line
other than the replaced msgstr blocks byte-identical, including comment
lines between a translated msgid and its msgstr. In the source the
lookahead loop assigns to the range variable, which Go range loops ignore,
so the lines walked by the lookahead are emitted a second time by the
outer loop: patching a file whose entry a carries one comment line between
msgid and msgstr duplicates that comment line in the output. -/
theorem translatePoFile_patch_duplicates_comment_line :
    (translatePoFile dupCommentPo potA1 (fun s => some (s ++ str "!")) (fun _ => false)).content.count
        (str "# mid") = 2 ∧
    dupCommentPo.count (str "# mid") = 1 ∧
    (translatePoFile dupCommentPo potA1 (fun s => some (s ++ str "!")) (fun _ => false)).count = 1 := by
  refine ⟨?_, ?_, ?_⟩ <;> decide

/-- Claim C5 counterexample. The claim states that incremental sync run a
second time on its own output yields zero additions. For the template key
consisting of one backslash the first run appends a msgid line whose
literal holds two backslashes; rescanning decodes it back to two
backslashes (extractString never folds backslash-backslash), the template
key is again considered missing, and the second run appends it again,
changing the content. -/
theorem translatePoFile_second_run_adds_backslash_key_again :
    (translatePoFile
        (translatePoFile [([] : Str)] bsPot (fun _ => none) (fun _ => false)).content
        bsPot (fun _ => none) (fun _ => false)).content ≠
      (translatePoFile [([] : Str)] bsPot (fun _ => none) (fun _ => false)).content ∧
    (missingOf (translatePoFile [([] : Str)] bsPot (fun _ => none) (fun _ => false)).content bsPot).isEmpty
      = false := by
  constructor
  · decide
  · decide

/-- Claim C5 as amended: when nothing needs adding and no entry needs
translation, incremental sync leaves the content unchanged, performs no
write and no backend call, and reports zero translations; in particular a
second run on the output of a completed run is a no-op whenever the keys
survive the escape round trip (the witness instantiates this at the
output of the a-b-c scenario run). -/
theorem translatePoFile_noop_when_nothing_missing_or_untranslated
    (lines : List Line) (pot : List (Str × POEntry)) (backend : Str → Option Str) (flag : Nat → Bool)
    (h1 : (missingOf lines pot).isEmpty = true)
    (h2 : (scanNeeds lines pot).isEmpty = true) :
    translatePoFile lines pot backend flag = ⟨lines, 0, []⟩ := by
  have hadd : linesAfterAdd lines pot = lines := by simp [linesAfterAdd, h1]
  have htr : addTrace lines pot = [] := by simp [addTrace, h1]
  rw [translatePoFile, hadd, htr, if_pos h2]

/-- Claim C5 witness: the second run on the output of the scenario run
(template a, b, c; target holding only a translated; every backend call of
the first run successful) satisfies both hypotheses and is a no-op. -/
theorem translatePoFile_noop_witness :
    (missingOf (translatePoFile syncPo potABC (fun s => some ('X' :: s)) (fun _ => false)).content
        potABC).isEmpty = true ∧
    (scanNeeds (translatePoFile syncPo potABC (fun s => some ('X' :: s)) (fun _ => false)).content
        potABC).isEmpty = true ∧
    translatePoFile (translatePoFile syncPo potABC (fun s => some ('X' :: s)) (fun _ => false)).content
        potABC (fun _ => none) (fun _ => false) =
      ⟨(translatePoFile syncPo potABC (fun s => some ('X' :: s)) (fun _ => false)).content, 0, []⟩ :=
  ⟨by decide, by decide,
    translatePoFile_noop_when_nothing_missing_or_untranslated _ _ _ _ (by decide) (by decide)⟩

/-- Claim C8. When the destination path already exists, the add-language
bootstrap fails with a configuration error and performs no write: the file
system is unchanged, so the existing destination content is untouched. -/
theorem addLangStep_fails_when_destination_exists
    (fs : List (Str × List Line)) (potPath destPath lang ts : Str) (c : List Line)
    (h : lookupA fs destPath = some c) :
    (addLangStep fs potPath destPath lang ts).failed = true ∧
    (addLangStep fs potPath destPath lang ts).fs = fs ∧
    lookupA (addLangStep fs potPath destPath lang ts).fs destPath = some c := by
  have hs : (lookupA fs destPath).isSome = true := by rw [h]; rfl
  rw [addLangStep, if_pos hs]
  exact ⟨rfl, rfl, h⟩

/-- Claim C8 witness: a file system already holding the destination
default_de.po. -/
theorem addLangStep_fails_when_destination_exists_witness :
    lookupA [(str "default.pot", [str "msgid \"\""]), (str "default_de.po", [str "old"])]
        (str "default_de.po") = some [str "old"] ∧
    ((addLangStep [(str "default.pot", [str "msgid \"\""]), (str "default_de.po", [str "old"])]
        (str "default.pot") (str "default_de.po") (str "de") (str "ts")).failed = true ∧
      (addLangStep [(str "default.pot", [str "msgid \"\""]), (str "default_de.po", [str "old"])]
        (str "default.pot") (str "default_de.po") (str "de") (str "ts")).fs =
        [(str "default.pot", [str "msgid \"\""]), (str "default_de.po", [str "old"])] ∧
      lookupA (addLangStep [(str "default.pot", [str "msgid \"\""]), (str "default_de.po", [str "old"])]
        (str "default.pot") (str "default_de.po") (str "de") (str "ts")).fs (str "default_de.po") =
        some [str "old"]) :=
  ⟨by decide,
    addLangStep_fails_when_destination_exists _ _ _ _ _ _ (by decide)⟩

/-- Claim C6. With an always-succeeding backend and a cancellation flag
that becomes set after k successes, the translation orchestrator attempts
exactly the first k keys (no call is issued after the flag is observed
set), records those k translations, and reports exactly k successes; an
interrupted run exits with code 130. The last conjunct checks the
file-level scenario of the spec: three keys needing translation, flag set
after the first success, so the file is written with that one translation
applied and the other two msgstr lines left empty. -/
theorem transLoop_stops_at_cancellation (keys : List Str) (f : Str → Str) (k : Nat)
    (hk : k ≤ keys.length) :
    (transLoop (fun s => some (f s)) (fun i => decide (k ≤ i)) keys 0).calls = keys.take k ∧
    (transLoop (fun s => some (f s)) (fun i => decide (k ≤ i)) keys 0).cnt = k ∧
    (transLoop (fun s => some (f s)) (fun i => decide (k ≤ i)) keys 0).tr =
      (keys.take k).map (fun s => (s, f s)) ∧
    mainExit true = 130 ∧
    translatePoFile fileABC potABC (fun s => some ('X' :: s)) (fun i => decide (1 ≤ i)) =
      ⟨fileABCout, 1, [Event.call (str "a"), Event.write fileABCout]⟩ := by
  have h := transLoop_take f k keys 0
  simp only [Nat.sub_zero] at h
  rw [h]
  exact ⟨rfl, Nat.min_eq_left hk, rfl, rfl, by decide⟩

/-- Claim C6 witness: two keys, flag set after the first success. -/
theorem transLoop_stops_at_cancellation_witness :
    1 ≤ ([str "p", str "q"] : List Str).length ∧
    ((transLoop (fun s => some s) (fun i => decide (1 ≤ i)) [str "p", str "q"] 0).calls =
        ([str "p", str "q"] : List Str).take 1 ∧
      (transLoop (fun s => some s) (fun i => decide (1 ≤ i)) [str "p", str "q"] 0).cnt = 1 ∧
      (transLoop (fun s => some s) (fun i => decide (1 ≤ i)) [str "p", str "q"] 0).tr =
        (([str "p", str "q"] : List Str).take 1).map (fun s => (s, s)) ∧
      mainExit true = 130 ∧
      translatePoFile fileABC potABC (fun s => some ('X' :: s)) (fun i => decide (1 ≤ i)) =
        ⟨fileABCout, 1, [Event.call (str "a"), Event.write fileABCout]⟩) :=
  ⟨by decide, transLoop_stops_at_cancellation [str "p", str "q"] (fun s => s) 1 (by decide)⟩

/-- Claim C7. Bootstrap cloning is line for line: the output has one line
per template line, and each line is the input line unless it lies in the
header region and carries one of the three markers, in which case it is
rewritten to the Language line with the target code, the Language-Team
line with the uppercased code, or the PO-Revision-Date line with the
current timestamp; every other line, entries, comments and empty msgstr
placeholders included, is copied unchanged. -/
theorem copyPotToPo_line_for_line_rewrites (lang ts : Str) (lines : List Line) :
    copyPotToPo lang ts lines =
      List.zipWith (rewriteLine lang ts) (hdrFlags true true lines) lines ∧
    (hdrFlags true true lines).length = lines.length :=
  ⟨copyLoop_eq_zipWith lang ts lines true true, hdrFlags_length true true lines⟩

/-- Claim C9. Whenever the set of missing keys is non-empty, the first
event of the run is the whole-file write of the content with the appended
entries, so it precedes every translation call; and when zero translations
succeed there is no second write and the post-addition content is the
final on-disk state. -/
theorem translatePoFile_writes_additions_before_calls
    (lines : List Line) (pot : List (Str × POEntry)) (backend : Str → Option Str) (flag : Nat → Bool)
    (h : (missingOf lines pot).isEmpty = false) :
    (translatePoFile lines pot backend flag).trace.head? =
      some (Event.write (addMissing lines pot (missingOf lines pot))) ∧
    ((translatePoFile lines pot backend flag).count = 0 →
      (translatePoFile lines pot backend flag).content = addMissing lines pot (missingOf lines pot) ∧
      (translatePoFile lines pot backend flag).trace.filter isWrite =
        [Event.write (addMissing lines pot (missingOf lines pot))]) := by
  have hadd : linesAfterAdd lines pot = addMissing lines pot (missingOf lines pot) := by
    simp [linesAfterAdd, h]
  have htr : addTrace lines pot = [Event.write (addMissing lines pot (missingOf lines pot))] := by
    simp [addTrace, h, hadd]
  rw [translatePoFile, hadd, htr]
  by_cases hn : (scanNeeds (addMissing lines pot (missingOf lines pot)) pot).isEmpty = true
  · rw [if_pos hn]
    exact ⟨rfl, fun _ => ⟨rfl, by simp [isWrite]⟩⟩
  · rw [if_neg hn]
    by_cases hc :
        (transLoop backend flag (scanNeeds (addMissing lines pot (missingOf lines pot)) pot) 0).cnt = 0
    · rw [if_pos hc]
      refine ⟨rfl, fun _ => ⟨rfl, ?_⟩⟩
      simp [isWrite, filter_isWrite_map_call]
    · rw [if_neg hc]
      exact ⟨rfl, fun h0 => absurd h0 hc⟩

/-- Claim C9 witness: a template key absent from an empty file, with a
backend that fails every call. -/
theorem translatePoFile_writes_additions_before_calls_witness :
    (missingOf [([] : Str)] potA1).isEmpty = false ∧
    ((translatePoFile [([] : Str)] potA1 (fun _ => none) (fun _ => false)).trace.head? =
        some (Event.write (addMissing [([] : Str)] potA1 (missingOf [([] : Str)] potA1))) ∧
      ((translatePoFile [([] : Str)] potA1 (fun _ => none) (fun _ => false)).count = 0 →
        (translatePoFile [([] : Str)] potA1 (fun _ => none) (fun _ => false)).content =
          addMissing [([] : Str)] potA1 (missingOf [([] : Str)] potA1) ∧
        (translatePoFile [([] : Str)] potA1 (fun _ => none) (fun _ => false)).trace.filter isWrite =
          [Event.write (addMissing [([] : Str)] potA1 (missingOf [([] : Str)] potA1))])) :=
  ⟨by decide, translatePoFile_writes_additions_before_calls _ _ _ _ (by decide)⟩

/-- Claim C10. For a file whose lines never carry the quoted Language
marker, getTargetLanguage returns exactly what the filename rule of the
claim prescribes: the substring after the last underscore with the .po
suffix stripped when that is non-empty, and an error (none) otherwise. -/
theorem getTargetLanguage_filename_fallback (lines : List Line) (base : Str)
    (h : ∀ l ∈ lines, containsSub l (str "\"Language:") = false) :
    getTargetLanguage lines base = claimLangFromFilename base := by
  have hs : scanLangLines lines = none := scanLangLines_eq_none lines h
  rw [getTargetLanguage, hs, claimLangFromFilename]
  by_cases hm : '_' ∈ base
  · have h2 : 2 ≤ (splitOnChar '_' base).length := (two_le_splitOnChar_length_iff '_' base).mpr hm
    rw [getLastD_splitOnChar_underscore, if_pos h2, if_pos hm]
  · have h2 : ¬ 2 ≤ (splitOnChar '_' base).length :=
      fun hc => hm ((two_le_splitOnChar_length_iff '_' base).mp hc)
    rw [if_neg h2, if_neg hm]

/-- Claim C10 witness: a file with no Language line and the filename
default_es.po. -/
theorem getTargetLanguage_filename_fallback_witness :
    (∀ l ∈ [str "msgid \"\"", str "msgstr \"\""], containsSub l (str "\"Language:") = false) ∧
    getTargetLanguage [str "msgid \"\"", str "msgstr \"\""] (str "default_es.po") =
      claimLangFromFilename (str "default_es.po") :=
  ⟨by decide, getTargetLanguage_filename_fallback _ _ (by decide)⟩
